import Mathlib

/-!
# Verification of the `gic` context-budgeting and prompt-assembly core

This file gives a shallow embedding, in Lean 4, of the pure core of the
`gic` repository (a Go command-line tool that generates commit messages
with a language model):

* `internal/git` (file `git.go`): `FileChange`, the numstat parsing and
  staged/unstaged merging of `DiffStat`, and the error handling of `Log`;
* `internal/commit/commit.go`: the `Run` workflow skeleton,
  `buildSmartDiff` (summary block, churn ranking, greedy budget
  selection, excluded-files note) and the prompt assembly of
  `generateCommitMessage`.

Conventions of the embedding:

* Go strings are Lean `String`s; `len(s)` in Go counts UTF-8 bytes, so it
  is modelled by `goLen` (the sum of the UTF-8 sizes of the characters).
* Go `int` is modelled by `Int` (no overflow is reachable at the sizes
  involved; `strconv.Atoi`'s 64-bit clamping is modelled explicitly).
* Calls into the git subprocess (`git.DiffFiles`) and the language-model
  client are modelled as explicit function parameters ("oracles") with
  `Except`-typed results, mirroring Go's `(T, error)` returns.
* `sort.Slice` is Go standard-library code, external to the repository.
  Its documented contract guarantees a permutation that is nondecreasing
  with respect to the supplied `less` function, and explicitly does NOT
  guarantee stability.  The model `sortByChurn` instantiates that
  contract with a concrete executable sort; every theorem whose truth
  depends on more than the contract states the contract explicitly as a
  hypothesis, so that it also holds of the real library sort.
-/

namespace Gic

/-- `git.FileChange` (git.go): statistics for one changed file.
`Added`/`Removed` are Go `int`s, modelled as `Int`. -/
structure FileChange where
  path : String
  added : Int
  removed : Int
deriving Repr, DecidableEq

/-- Total churn of a file, `Added + Removed`; the ranking key used by
`buildSmartDiff`'s `sort.Slice` call and its size estimate. -/
def FileChange.churn (st : FileChange) : Int :=
  st.added + st.removed

/-- Go `len(s)` on a string: the number of UTF-8 bytes. -/
def goLen (s : String) : Nat :=
  s.data.foldr (fun c n => c.utf8Size + n) 0

/-- `maxPromptChars` (commit.go): the hard prompt budget. -/
def maxPromptChars : Nat := 500000

/-- `promptOverhead` (commit.go): reservation for the prompt template. -/
def promptOverhead : Nat := 2000

/-- The literal summary header written by `buildSmartDiff` and tested by
`generateCommitMessage` via `strings.Contains`. -/
def summaryHeader : String := "Changed Files Summary:"

/-- One line of the summary block:
`fmt.Sprintf("  %s: +%d -%d lines\n", stat.Path, stat.Added, stat.Removed)`. -/
def summaryEntry (st : FileChange) : String :=
  "  " ++ st.path ++ ": +" ++ toString st.added ++ " -" ++
    toString st.removed ++ " lines\n"

/-- The complete summary block written by `buildSmartDiff` before any
selection: the header line, one entry per file in the original order of
`fileStats`, then a blank line. -/
def summaryBlock (fileStats : List FileChange) : String :=
  summaryHeader ++ "\n" ++ String.join (fileStats.map summaryEntry) ++ "\n"

/-- The trailing note of `buildSmartDiff`:
`fmt.Sprintf("\n[Note: Diffs excluded for %d large files: %s]\n", len(excludedPaths), strings.Join(excludedPaths, ", "))`. -/
def excludedNote (excludedPaths : List String) : String :=
  "\n[Note: Diffs excluded for " ++ toString excludedPaths.length ++
    " large files: " ++ String.intercalate ", " excludedPaths ++ "]\n"

/-- The per-file size estimate of the selection loop:
`estimatedSize := (stat.Added + stat.Removed) * 5`. -/
def estimatedSize (st : FileChange) : Int :=
  (st.added + st.removed) * 5

/-- The selection loop of `buildSmartDiff` (commit.go): walks the ranked
list with a running `usedBudget`, appending each file's path either to
`selectedPaths` (when `usedBudget + estimatedSize ≤ budget`, in which
case the estimate is charged to the budget) or to `excludedPaths`
(otherwise; the walk continues with `usedBudget` unchanged). -/
def selectLoop (budget : Int) : List FileChange → Int → List String × List String
  | [], _ => ([], [])
  | st :: rest, usedBudget =>
    if usedBudget + estimatedSize st > budget then
      let r := selectLoop budget rest usedBudget
      (r.1, st.path :: r.2)
    else
      let r := selectLoop budget rest (usedBudget + estimatedSize st)
      (st.path :: r.1, r.2)

/-- The comparison handed to `sort.Slice`, weakened to its reflexive
closure: `sorted[i].Added+sorted[i].Removed < sorted[j].Added+sorted[j].Removed`
sorts into nondecreasing churn order. -/
def churnLE (a b : FileChange) : Prop :=
  a.churn ≤ b.churn

instance : DecidableRel churnLE := fun a b => inferInstanceAs (Decidable (a.churn ≤ b.churn))

instance : IsTotal FileChange churnLE := ⟨fun a b => Int.le_total a.churn b.churn⟩

instance : IsTrans FileChange churnLE := ⟨fun _ _ _ h h' => le_trans h h'⟩

/-- Model of the `sort.Slice` call in `buildSmartDiff`: a churn-
nondecreasing permutation of `fileStats`.  `sort.Slice` is standard-
library code outside the repository; it promises exactly sortedness (not
stability), and theorems below that rely on the ordering take the
sortedness contract as an explicit hypothesis so that they hold for the
real library sort as well. -/
def sortByChurn (fileStats : List FileChange) : List FileChange :=
  List.insertionSort churnLE fileStats

/-- `buildSmartDiff` (commit.go), with the `git.DiffFiles` subprocess
call abstracted as the oracle `diffFiles`.  Mirrors the source: empty
stats return the full diff unchanged; otherwise the summary block is
written, files are ranked by churn and greedily selected against
`budget` starting from `usedBudget = summarySize`; if any file was
selected, a detailed-diffs header is written and the oracle's output is
appended only when it did not fail (`if err == nil`); if any file was
excluded, the trailing note is appended. -/
def buildSmartDiff (diffFiles : List String → Except String String)
    (fileStats : List FileChange) (fullDiff : String) (budget : Int) : String :=
  if fileStats.isEmpty then fullDiff
  else
    let summary := summaryBlock fileStats
    let sel := selectLoop budget (sortByChurn fileStats) (goLen summary : Int)
    let afterDiffs :=
      if sel.1.isEmpty then summary
      else
        summary ++ "Detailed Diffs (selected files):\n\n" ++
          (match diffFiles sel.1 with
           | Except.ok d => d
           | Except.error _ => "")
    if sel.2.isEmpty then afterDiffs else afterDiffs ++ excludedNote sel.2

/-- The selected paths of `buildSmartDiff` for a given stats list and
budget (the `selectedPaths` slice of the source). -/
def smartSelected (fileStats : List FileChange) (budget : Int) : List String :=
  (selectLoop budget (sortByChurn fileStats) (goLen (summaryBlock fileStats) : Int)).1

/-- The excluded paths of `buildSmartDiff` for a given stats list and
budget (the `excludedPaths` slice of the source). -/
def smartExcluded (fileStats : List FileChange) (budget : Int) : List String :=
  (selectLoop budget (sortByChurn fileStats) (goLen (summaryBlock fileStats) : Int)).2

/-! ## Go string primitives used by the core

`strings.TrimSpace`, `strings.Fields`, `strings.Split(s, "\n")`,
`strings.Contains` and `strconv.Atoi`, modelled on `List Char` so that
they evaluate by kernel reduction. -/

/-- `unicode.IsSpace`: the Unicode White_Space code points. -/
def goIsSpace (c : Char) : Bool :=
  let n := c.toNat
  n == 9 || n == 10 || n == 11 || n == 12 || n == 13 || n == 32 ||
    n == 0x85 || n == 0xA0 || n == 0x1680 ||
    (Nat.ble 0x2000 n && Nat.ble n 0x200A) ||
    n == 0x2028 || n == 0x2029 || n == 0x202F || n == 0x205F || n == 0x3000

/-- `strings.TrimSpace`: drop leading and trailing white space. -/
def goTrimSpace (s : String) : String :=
  String.mk (((s.data.dropWhile goIsSpace).reverse.dropWhile goIsSpace).reverse)

/-- Whether `pre` is a prefix of `l` (helper for `goContains`). -/
def isPrefixList : List Char → List Char → Bool
  | [], _ => true
  | _ :: _, [] => false
  | a :: as, b :: bs => a == b && isPrefixList as bs

/-- Whether `sub` occurs as a contiguous run inside the second list. -/
def containsSub (sub : List Char) : List Char → Bool
  | [] => isPrefixList sub []
  | c :: rest => isPrefixList sub (c :: rest) || containsSub sub rest

/-- `strings.Contains(s, sub)`. -/
def goContains (s sub : String) : Bool :=
  containsSub sub.data s.data

/-- Helper for `goSplitLines`: accumulates the current field in reverse. -/
def splitLinesAux : List Char → List Char → List String
  | [], acc => [String.mk acc.reverse]
  | c :: rest, acc =>
    if c == '\n' then String.mk acc.reverse :: splitLinesAux rest []
    else splitLinesAux rest (c :: acc)

/-- `strings.Split(s, "\n")`. -/
def goSplitLines (s : String) : List String :=
  splitLinesAux s.data []

/-- Helper for `goFields`: accumulates the current field in reverse. -/
def fieldsAux : List Char → List Char → List String
  | [], acc => if acc.isEmpty then [] else [String.mk acc.reverse]
  | c :: rest, acc =>
    if goIsSpace c then
      if acc.isEmpty then fieldsAux rest []
      else String.mk acc.reverse :: fieldsAux rest []
    else fieldsAux rest (c :: acc)

/-- `strings.Fields(s)`: the maximal runs of non-white-space characters. -/
def goFields (s : String) : List String :=
  fieldsAux s.data []

/-- Largest value of Go's 64-bit `int`. -/
def maxInt64 : Int := 9223372036854775807

/-- Smallest value of Go's 64-bit `int`. -/
def minInt64 : Int := -9223372036854775808

/-- Helper for `goAtoiVal`: reads a run of decimal digits; `none` when a
non-digit occurs. -/
def parseDigits : List Char → Nat → Option Nat
  | [], n => some n
  | c :: rest, n =>
    if Nat.ble 48 c.toNat && Nat.ble c.toNat 57 then
      parseDigits rest (n * 10 + (c.toNat - 48))
    else none

/-- The value the Go core ends up with from `v, _ := strconv.Atoi(s)`:
the parsed 64-bit integer, the clamped bound on a range error, and `0`
on a syntax error (empty string, sign alone, or a non-digit). -/
def goAtoiVal (s : String) : Int :=
  match s.data with
  | [] => 0
  | c :: rest =>
    let signDigits : Bool × List Char :=
      if c == '-' then (true, rest)
      else if c == '+' then (false, rest)
      else (false, c :: rest)
    match signDigits.2 with
    | [] => 0
    | ds =>
      match parseDigits ds 0 with
      | none => 0
      | some n =>
        let v : Int := if signDigits.1 then -(n : Int) else (n : Int)
        if v > maxInt64 then maxInt64 else if v < minInt64 then minInt64 else v

/-! ## `git.DiffStat` (git.go): numstat parsing and staged/unstaged merge -/

/-- One iteration of the `parseNumstat` loop body (git.go): skip empty
lines and lines with fewer than three fields; otherwise read
`added := Atoi(parts[0])`, `removed := Atoi(parts[1])`, `path := parts[2]`
(extra fields are ignored by the source as well). -/
def parseNumstatLine (line : String) : Option (String × Int × Int) :=
  if line == "" then none
  else
    match goFields line with
    | a :: r :: p :: _ => some (p, goAtoiVal a, goAtoiVal r)
    | _ => none

/-- The parsed entries of one numstat output:
`strings.Split(strings.TrimSpace(output), "\n")` filtered through the
loop body. -/
def numstatEntries (output : String) : List (String × Int × Int) :=
  (goSplitLines (goTrimSpace output)).filterMap parseNumstatLine

/-- Inserting one parsed entry into the accumulated per-path statistics:
when the path is already present its counts are summed in place,
otherwise a fresh `FileChange` is appended.  Go keeps the statistics in
a map (`statsMap`); iteration order of a Go map is unspecified, so the
model keeps an insertion-ordered association list and every claim about
the result is stated order-insensitively. -/
def addEntry : List FileChange → String × Int × Int → List FileChange
  | [], e => [⟨e.1, e.2.1, e.2.2⟩]
  | st :: rest, e =>
    if st.path = e.1 then ⟨st.path, st.added + e.2.1, st.removed + e.2.2⟩ :: rest
    else st :: addEntry rest e

/-- Folding a list of parsed entries into merged per-path statistics. -/
def mergeEntries (es : List (String × Int × Int)) : List FileChange :=
  es.foldl addEntry []

/-- `git.DiffStat` (git.go) after the two subprocess reads: parse the
staged numstat output and then the unstaged one into the same map, so
the result merges the two entry streams in order. -/
def diffStatModel (stagedOutput unstagedOutput : String) : List FileChange :=
  mergeEntries (numstatEntries stagedOutput ++ numstatEntries unstagedOutput)

/-! ## `git.Log` (git.go): the one tolerated failure -/

/-- The substring `git.Log` looks for in a failed `git log` run. -/
def noCommitsMsg : String := "does not have any commits yet"

/-- `git.Log` (git.go) as a function of the underlying `git log -10
--oneline` subprocess result: an error whose text contains
`noCommitsMsg` collapses to an empty history with no error; any other
result passes through unchanged. -/
def logModel (raw : Except String String) : Except String String :=
  match raw with
  | Except.ok out => Except.ok out
  | Except.error e =>
    if goContains e noCommitsMsg then Except.ok "" else Except.error e

/-! ## The `Run` workflow (commit.go) -/

/-- The four pieces of repository state gathered by `Run`'s fan-out. -/
structure Snapshot where
  status : String
  diff : String
  log : String
  fileStats : List FileChange
deriving Repr, DecidableEq

/-- `totalSize := len(status) + len(diff) + len(log) + promptOverhead`. -/
def totalSize (snap : Snapshot) : Nat :=
  goLen snap.status + goLen snap.diff + goLen snap.log + promptOverhead

/-- The budget handed to `buildSmartDiff`:
`maxPromptChars - len(status) - len(log) - promptOverhead` (a Go `int`
subtraction, which may be negative). -/
def availableForDiff (snap : Snapshot) : Int :=
  (maxPromptChars : Int) - (goLen snap.status : Int) - (goLen snap.log : Int)
    - (promptOverhead : Int)

/-- Whether `Run` takes the smart-selection branch:
`totalSize > maxPromptChars`. -/
def usesSmartSelection (snap : Snapshot) : Bool :=
  decide (totalSize snap > maxPromptChars)

/-- The diff text `Run` feeds to `generateCommitMessage`: the raw diff
when the snapshot fits the budget, the smart diff otherwise. -/
def chooseDiff (diffFiles : List String → Except String String)
    (snap : Snapshot) : String :=
  if totalSize snap > maxPromptChars then
    buildSmartDiff diffFiles snap.fileStats snap.diff (availableForDiff snap)
  else snap.diff

/-- The caveat `generateCommitMessage` appends when `hasSmartDiff`. -/
def contextNoteText : String :=
  "\n(Note: Due to large changeset, detailed diffs shown for selected files only. Use summary above for full picture.)\n"

/-- `hasSmartDiff := len(fileStats) > 0 && strings.Contains(diff, "Changed Files Summary:")`. -/
def hasSmartDiffB (fileStats : List FileChange) (diff : String) : Bool :=
  (!fileStats.isEmpty) && goContains diff summaryHeader

/-- The `contextNote` string of `generateCommitMessage`. -/
def contextNoteOf (fileStats : List FileChange) (diff : String) : String :=
  if hasSmartDiffB fileStats diff then contextNoteText else ""

/-- The `userInputSection` string of `generateCommitMessage`. -/
def userInputSectionOf (userInput : String) : String :=
  if userInput == "" then ""
  else "\n\nUser Input:\n```\n" ++ userInput ++ "\n```\n"

/-- The prompt template of `generateCommitMessage` with its five format
slots (status, diff, context note, log, user-input section). -/
def promptTemplate (status diff contextNote log userInputSection : String) : String :=
  "Analyze the following git repository state and generate a concise commit message.\n\nGit Status:\n```\n"
    ++ status
    ++ "\n```\n\nGit Diff:\n```\n"
    ++ diff ++ contextNote
    ++ "\n```\n\nRecent Commits (for style reference):\n```\n"
    ++ log
    ++ "\n```"
    ++ userInputSection
    ++ "\n\nIMPORTANT: Your entire response must be ONLY the commit message text itself.\nDo NOT include:\n- Any analysis or explanation\n- Prefixes like \"Claude:\", \"Here's\", \"Based on\"\n- Phrases like \"I'll analyze\" or \"my suggested commit message is\"\n- Signatures or attributions\n\nWrite a commit message that:\n1. Summarizes the changes concisely (1-2 sentences)\n2. Focuses on WHY rather than WHAT\n3. Follows the style of recent commits shown above\n\nStart your response directly with the commit message text."

/-- The full prompt `generateCommitMessage` sends for a given diff text. -/
def commitPrompt (status diff log : String) (fileStats : List FileChange)
    (userInput : String) : String :=
  promptTemplate status diff (contextNoteOf fileStats diff) log
    (userInputSectionOf userInput)

/-- The errors `Run` can return, tagged with the failing sub-operation
as the source's `fmt.Errorf` wrappers do. -/
inductive RunError where
  | staging (e : String)
  | collection (e : String)
  | generation (e : String)
  | cancelled
  | commitFailed (e : String)
deriving Repr, DecidableEq

/-- The observable outcome of one `Run`: the returned error (if any),
whether the language-model client was invoked, whether `git commit` was
invoked, and whether the empty-diff short circuit fired. -/
structure RunOutcome where
  result : Option RunError
  calledLLM : Bool
  didCommit : Bool
  noChanges : Bool
deriving Repr, DecidableEq

/-- The control skeleton of `Run` (commit.go), with every external
effect an explicit parameter: `addErr` is the result of `git.Add(".")`,
`collect` the fan-in of the four gathers (`errs[0]` on failure), `llm`
the language-model client applied to the assembled prompt, `confirmed`
the interactive confirmation, and `commitErr` the result of
`git.Commit`.  The empty-changeset gate is the source's
`diff == "" || strings.TrimSpace(diff) == ""`. -/
def runModel (addErr : Option String) (collect : Except String Snapshot)
    (diffFiles : List String → Except String String)
    (llm : String → Except String String) (userInput : String)
    (confirmed : Bool) (commitErr : Option String) : RunOutcome :=
  match addErr with
  | some e => ⟨some (RunError.staging e), false, false, false⟩
  | none =>
    match collect with
    | Except.error e => ⟨some (RunError.collection e), false, false, false⟩
    | Except.ok snap =>
      if snap.diff = "" ∨ goTrimSpace snap.diff = "" then
        ⟨none, false, false, true⟩
      else
        match llm (commitPrompt snap.status (chooseDiff diffFiles snap)
            snap.log snap.fileStats userInput) with
        | Except.error e => ⟨some (RunError.generation e), true, false, false⟩
        | Except.ok _ =>
          if !confirmed then ⟨some RunError.cancelled, true, false, false⟩
          else
            match commitErr with
            | some e => ⟨some (RunError.commitFailed e), true, false, false⟩
            | none => ⟨none, true, true, false⟩

/-! ## Helper lemmas -/

theorem estimatedSize_eq (st : FileChange) : estimatedSize st = st.churn * 5 := rfl

theorem estimatedSize_mono {a b : FileChange} (h : churnLE a b) :
    estimatedSize a ≤ estimatedSize b := by
  rw [estimatedSize_eq, estimatedSize_eq]
  exact mul_le_mul_of_nonneg_right h (by norm_num)

theorem sorted_sortByChurn (l : List FileChange) :
    List.Sorted churnLE (sortByChurn l) :=
  List.sorted_insertionSort churnLE l

theorem perm_sortByChurn (l : List FileChange) : (sortByChurn l).Perm l :=
  List.perm_insertionSort churnLE l

theorem sortByChurn_ne_nil {l : List FileChange} (h : l ≠ []) :
    sortByChurn l ≠ [] := by
  intro hc
  have hlen := (perm_sortByChurn l).length_eq
  rw [hc] at hlen
  exact h (List.length_eq_zero.mp hlen.symm)

/-- When every file of the list overflows the remaining budget, the loop
selects nothing and excludes everything in order. -/
theorem selectLoop_all_excluded (budget : Int) :
    ∀ (l : List FileChange) (used : Int),
      (∀ st ∈ l, budget < used + estimatedSize st) →
      selectLoop budget l used = ([], l.map (fun st => st.path))
  | [], _, _ => rfl
  | st :: rest, used, h => by
    have hst : budget < used + estimatedSize st := h st (by simp)
    simp only [selectLoop, if_pos hst]
    rw [selectLoop_all_excluded budget rest used (fun x hx => h x (by simp [hx]))]
    simp

/-- Sum of the size estimates of a list of files. -/
def sumEst (l : List FileChange) : Int :=
  (l.map estimatedSize).sum

/-- Structure of the greedy walk over a churn-sorted list: the selection
is a prefix of the walked list, the exclusion is the matching suffix,
and whenever at least one file was selected the running budget, after
charging every selected estimate, still fits. -/
theorem selectLoop_take_drop (budget : Int) :
    ∀ (l : List FileChange) (used : Int), List.Sorted churnLE l →
      ∃ k, (selectLoop budget l used).1 = (l.take k).map (fun st => st.path) ∧
        (selectLoop budget l used).2 = (l.drop k).map (fun st => st.path) ∧
        (0 < k → used + sumEst (l.take k) ≤ budget)
  | [], used, _ => ⟨0, by simp [selectLoop]⟩
  | st :: rest, used, hs => by
    rcases List.sorted_cons.mp hs with ⟨hall, hrest⟩
    by_cases hex : budget < used + estimatedSize st
    · refine ⟨0, ?_, ?_, by simp⟩
      · rw [selectLoop_all_excluded budget (st :: rest) used ?_]
        · simp
        · intro x hx
          rcases List.mem_cons.mp hx with h | h
          · exact h ▸ hex
          · exact lt_of_lt_of_le hex
              (by have := estimatedSize_mono (hall x h); omega)
      · rw [selectLoop_all_excluded budget (st :: rest) used ?_]
        · simp
        · intro x hx
          rcases List.mem_cons.mp hx with h | h
          · exact h ▸ hex
          · exact lt_of_lt_of_le hex
              (by have := estimatedSize_mono (hall x h); omega)
    · rcases selectLoop_take_drop budget rest (used + estimatedSize st) hrest
        with ⟨k, h1, h2, h3⟩
      refine ⟨k + 1, ?_, ?_, ?_⟩
      · simp only [selectLoop, if_neg hex, List.take_succ_cons, List.map_cons]
        rw [h1]
      · simp only [selectLoop, if_neg hex, List.drop_succ_cons]
        rw [h2]
      · intro _
        rcases Nat.eq_zero_or_pos k with hk | hk
        · subst hk
          simp only [List.take_succ_cons, List.take_zero, sumEst, List.map_cons,
            List.map_nil, List.sum_cons, List.sum_nil]
          omega
        · have := h3 hk
          simp only [List.take_succ_cons, sumEst, List.map_cons, List.sum_cons]
          simp only [sumEst] at this
          omega

/-- Budget monotonicity of the greedy walk over a churn-sorted list:
with at least as much remaining budget, every selected path stays
selected. -/
theorem selectLoop_mono (b b' : Int) :
    ∀ (l : List FileChange) (used used' : Int), List.Sorted churnLE l →
      b - used ≤ b' - used' →
      ∀ p ∈ (selectLoop b l used).1, p ∈ (selectLoop b' l used').1
  | [], _, _, _, _, p, hp => by simp [selectLoop] at hp
  | st :: rest, used, used', hs, hdiff, p, hp => by
    rcases List.sorted_cons.mp hs with ⟨hall, hrest⟩
    by_cases hex : b < used + estimatedSize st
    · rw [selectLoop_all_excluded b (st :: rest) used ?_] at hp
      · simp at hp
      · intro x hx
        rcases List.mem_cons.mp hx with h | h
        · exact h ▸ hex
        · exact lt_of_lt_of_le hex
            (by have := estimatedSize_mono (hall x h); omega)
    · have hsel' : ¬ b' < used' + estimatedSize st := by omega
      simp only [selectLoop, if_neg hex, List.mem_cons] at hp
      simp only [selectLoop, if_neg hsel', List.mem_cons]
      rcases hp with h | h
      · exact Or.inl h
      · exact Or.inr (selectLoop_mono b b' rest (used + estimatedSize st)
          (used' + estimatedSize st) hrest (by omega) p h)

theorem goLen_foldr_add (l : List Char) (m : Nat) :
    l.foldr (fun c n => c.utf8Size + n) m
      = l.foldr (fun c n => c.utf8Size + n) 0 + m := by
  induction l with
  | nil => simp
  | cons c rest ih => simp [List.foldr_cons, ih]; omega

theorem goLen_append (a b : String) : goLen (a ++ b) = goLen a + goLen b := by
  show (a ++ b).data.foldr _ 0 = _
  rw [String.data_append, List.foldr_append, goLen_foldr_add]
  rfl

theorem goLen_summaryBlock_pos (stats : List FileChange) :
    0 < goLen (summaryBlock stats) := by
  unfold summaryBlock
  rw [goLen_append, goLen_append]
  have h23 : goLen (summaryHeader ++ "\n") = 23 := by decide
  omega

/-- The detailed-diffs middle section of the smart diff, as the source
builds it: nothing when no file was selected, otherwise the header plus
the oracle's output when the oracle did not fail. -/
def detailedSection (diffFiles : List String → Except String String)
    (selectedPaths : List String) : String :=
  if selectedPaths.isEmpty then ""
  else
    "Detailed Diffs (selected files):\n\n" ++
      (match diffFiles selectedPaths with
       | Except.ok d => d
       | Except.error _ => "")

/-- Decomposition of `buildSmartDiff` for a non-empty stats list into
its three blocks: summary, detailed section, excluded note. -/
theorem buildSmartDiff_decomp (diffFiles : List String → Except String String)
    (fileStats : List FileChange) (fullDiff : String) (budget : Int)
    (h : fileStats ≠ []) :
    buildSmartDiff diffFiles fileStats fullDiff budget =
      summaryBlock fileStats
        ++ detailedSection diffFiles (smartSelected fileStats budget)
        ++ (if (smartExcluded fileStats budget).isEmpty then ""
            else excludedNote (smartExcluded fileStats budget)) := by
  have hne : fileStats.isEmpty = false := by
    cases fileStats with
    | nil => exact absurd rfl h
    | cons a l => rfl
  unfold buildSmartDiff detailedSection smartSelected smartExcluded
  rw [hne]
  simp only [Bool.false_eq_true, if_false]
  by_cases hsel : (selectLoop budget (sortByChurn fileStats)
      (goLen (summaryBlock fileStats) : Int)).1.isEmpty
  · simp only [hsel, if_true]
    by_cases hexc : (selectLoop budget (sortByChurn fileStats)
        (goLen (summaryBlock fileStats) : Int)).2.isEmpty
    · simp [hexc]
    · simp [hexc]
  · simp only [hsel, if_false]
    by_cases hexc : (selectLoop budget (sortByChurn fileStats)
        (goLen (summaryBlock fileStats) : Int)).2.isEmpty
    · simp [hexc, String.append_assoc]
    · simp [hexc, String.append_assoc]

theorem isPrefixList_append (l t : List Char) : isPrefixList l (l ++ t) = true := by
  induction l with
  | nil => rfl
  | cons c rest ih => simp [isPrefixList, ih]

theorem containsSub_of_isPrefix (sub hay : List Char)
    (h : isPrefixList sub hay = true) : containsSub sub hay = true := by
  cases hay with
  | nil => simpa [containsSub] using h
  | cons c rest => simp [containsSub, h]

theorem goContains_self_append (s t : String) : goContains (s ++ t) s = true := by
  apply containsSub_of_isPrefix
  rw [String.data_append]
  exact isPrefixList_append s.data t.data

/-! ## The claims -/

/-- C3: smart selection is monotonic in the budget: for a fixed file-stat
list and budgets `b ≤ b'`, every path selected by `buildSmartDiff`'s
greedy walk under `b` is also selected under `b'`.  Both walks start
from the same `usedBudget` (the summary size, which depends only on the
stats) and traverse the same churn-sorted list, so the general lemma
`selectLoop_mono` applies with equal slack. -/
theorem smartSelection_budget_mono (fileStats : List FileChange) (b b' : Int)
    (h : b ≤ b') :
    ∀ p ∈ smartSelected fileStats b, p ∈ smartSelected fileStats b' := by
  intro p hp
  exact selectLoop_mono b b' (sortByChurn fileStats)
    (goLen (summaryBlock fileStats) : Int) (goLen (summaryBlock fileStats) : Int)
    (sorted_sortByChurn fileStats) (by omega) p hp

/-- Witness for C3 at a concrete input: with stats `[a: +1 -1]` the path
`a` is selected under budget 60 (summary size 41, estimate 10) and stays
selected under the larger budget 100. -/
theorem smartSelection_budget_mono_witness :
    smartSelected [⟨"a", 1, 1⟩] 60 = ["a"] ∧
      ∀ p ∈ smartSelected [⟨"a", 1, 1⟩] 60, p ∈ smartSelected [⟨"a", 1, 1⟩] 100 :=
  ⟨by decide, smartSelection_budget_mono [⟨"a", 1, 1⟩] 60 100 (by decide)⟩

/-- C10: for a non-empty stats list the selection is a prefix of the
churn-ascending order and the exclusion the matching suffix, every
selected file's churn is at most every excluded file's churn, and when
at least one file is selected the summary size plus the selected
estimates fits the budget. -/
theorem smartSelection_prefix_invariant (fileStats : List FileChange)
    (budget : Int) (_hne : fileStats ≠ []) :
    ∃ k, smartSelected fileStats budget
        = ((sortByChurn fileStats).take k).map (fun st => st.path) ∧
      smartExcluded fileStats budget
        = ((sortByChurn fileStats).drop k).map (fun st => st.path) ∧
      (∀ s ∈ (sortByChurn fileStats).take k,
        ∀ e ∈ (sortByChurn fileStats).drop k, s.churn ≤ e.churn) ∧
      (smartSelected fileStats budget ≠ [] →
        (goLen (summaryBlock fileStats) : Int)
          + sumEst ((sortByChurn fileStats).take k) ≤ budget) := by
  rcases selectLoop_take_drop budget (sortByChurn fileStats)
      (goLen (summaryBlock fileStats) : Int) (sorted_sortByChurn fileStats)
    with ⟨k, h1, h2, h3⟩
  refine ⟨k, h1, h2, ?_, ?_⟩
  · have hsorted : List.Sorted churnLE
        ((sortByChurn fileStats).take k ++ (sortByChurn fileStats).drop k) := by
      rw [List.take_append_drop]
      exact sorted_sortByChurn fileStats
    exact fun s hs e he => (List.pairwise_append.mp hsorted).2.2 s hs e he
  · intro hsel
    have hk : 0 < k := by
      rcases Nat.eq_zero_or_pos k with h0 | h0
      · exfalso
        apply hsel
        show smartSelected fileStats budget = []
        rw [show smartSelected fileStats budget
            = (selectLoop budget (sortByChurn fileStats)
                (goLen (summaryBlock fileStats) : Int)).1 from rfl, h1, h0]
        simp
      · exact h0
    exact h3 hk

/-- Witness for C10 at a concrete input: stats `[a: +1 -1, b: +100 -100]`
with budget 100 (summary size 62) select exactly `a` (estimate 10) and
exclude `b` (estimate 1000). -/
theorem smartSelection_prefix_invariant_witness :
    smartSelected [⟨"a", 1, 1⟩, ⟨"b", 100, 100⟩] 100 = ["a"] ∧
    smartExcluded [⟨"a", 1, 1⟩, ⟨"b", 100, 100⟩] 100 = ["b"] ∧
    (∃ k, smartSelected [⟨"a", 1, 1⟩, ⟨"b", 100, 100⟩] 100
        = ((sortByChurn [⟨"a", 1, 1⟩, ⟨"b", 100, 100⟩]).take k).map (fun st => st.path) ∧
      smartExcluded [⟨"a", 1, 1⟩, ⟨"b", 100, 100⟩] 100
        = ((sortByChurn [⟨"a", 1, 1⟩, ⟨"b", 100, 100⟩]).drop k).map (fun st => st.path) ∧
      (∀ s ∈ (sortByChurn [⟨"a", 1, 1⟩, ⟨"b", 100, 100⟩]).take k,
        ∀ e ∈ (sortByChurn [⟨"a", 1, 1⟩, ⟨"b", 100, 100⟩]).drop k, s.churn ≤ e.churn) ∧
      (smartSelected [⟨"a", 1, 1⟩, ⟨"b", 100, 100⟩] 100 ≠ [] →
        (goLen (summaryBlock [⟨"a", 1, 1⟩, ⟨"b", 100, 100⟩]) : Int)
          + sumEst ((sortByChurn [⟨"a", 1, 1⟩, ⟨"b", 100, 100⟩]).take k) ≤ 100)) :=
  ⟨by decide, by decide,
    smartSelection_prefix_invariant [⟨"a", 1, 1⟩, ⟨"b", 100, 100⟩] 100 (by decide)⟩

/-- Counterexample to C2 as frozen: with an empty change list,
`buildSmartDiff` returns the raw diff unchanged and the output does not
contain the summary header (the source returns `fullDiff` before
writing anything when `len(fileStats) == 0`). -/
theorem smartDiff_empty_stats_no_summary :
    buildSmartDiff (fun _ => Except.ok "") [] "raw diff text" 448000 = "raw diff text" ∧
    goContains "raw diff text" summaryHeader = false :=
  ⟨rfl, by decide⟩

/-- C2 as amended: for a NON-empty change list, the smart diff always
begins with the complete summary block — the literal header line
followed by one `summaryEntry` per file of the stats list, in the
original (unranked) order, each carrying its added/removed counts —
regardless of budget or selection outcome; in particular the output
contains the literal summary header. -/
theorem smartDiff_summary_floor (diffFiles : List String → Except String String)
    (fileStats : List FileChange) (fullDiff : String) (budget : Int)
    (hne : fileStats ≠ []) :
    (∃ rest, buildSmartDiff diffFiles fileStats fullDiff budget
        = (summaryHeader ++ "\n"
            ++ String.join (fileStats.map summaryEntry) ++ "\n") ++ rest) ∧
    goContains (buildSmartDiff diffFiles fileStats fullDiff budget)
      summaryHeader = true := by
  have hd := buildSmartDiff_decomp diffFiles fileStats fullDiff budget hne
  constructor
  · refine ⟨detailedSection diffFiles (smartSelected fileStats budget)
      ++ (if (smartExcluded fileStats budget).isEmpty then ""
          else excludedNote (smartExcluded fileStats budget)), ?_⟩
    rw [hd]
    show summaryBlock fileStats ++ _ ++ _ = summaryBlock fileStats ++ _
    rw [String.append_assoc]
  · rw [hd]
    show goContains (summaryHeader ++ "\n"
      ++ String.join (fileStats.map summaryEntry) ++ "\n" ++ _ ++ _) summaryHeader = true
    rw [String.append_assoc, String.append_assoc, String.append_assoc,
      String.append_assoc]
    exact goContains_self_append summaryHeader _

/-- Witness for the amended C2 at a concrete input. -/
theorem smartDiff_summary_floor_witness :
    (∃ rest, buildSmartDiff (fun _ => Except.ok "D") [⟨"a", 2, 3⟩] "FULL" 0
        = (summaryHeader ++ "\n"
            ++ String.join ([⟨"a", 2, 3⟩].map summaryEntry) ++ "\n") ++ rest) ∧
    goContains (buildSmartDiff (fun _ => Except.ok "D") [⟨"a", 2, 3⟩] "FULL" 0)
      summaryHeader = true :=
  smartDiff_summary_floor (fun _ => Except.ok "D") [⟨"a", 2, 3⟩] "FULL" 0 (by decide)

/-- C5: for a non-empty stats list the excluded-files note is appended
exactly when the excluded set is non-empty, and the note prints the
length of the very list of paths it joins (so the stated count equals
the number of listed paths, which is the number of excluded files). -/
theorem smartDiff_excluded_note_iff (diffFiles : List String → Except String String)
    (fileStats : List FileChange) (fullDiff : String) (budget : Int)
    (hne : fileStats ≠ []) :
    (smartExcluded fileStats budget = [] →
      buildSmartDiff diffFiles fileStats fullDiff budget
        = summaryBlock fileStats
          ++ detailedSection diffFiles (smartSelected fileStats budget)) ∧
    (smartExcluded fileStats budget ≠ [] →
      buildSmartDiff diffFiles fileStats fullDiff budget
        = summaryBlock fileStats
          ++ detailedSection diffFiles (smartSelected fileStats budget)
          ++ ("\n[Note: Diffs excluded for "
              ++ toString (smartExcluded fileStats budget).length
              ++ " large files: "
              ++ String.intercalate ", " (smartExcluded fileStats budget)
              ++ "]\n")) := by
  have hd := buildSmartDiff_decomp diffFiles fileStats fullDiff budget hne
  constructor
  · intro hexc
    rw [hd, hexc]
    simp [String.append_empty]
  · intro hexc
    rw [hd]
    have : (smartExcluded fileStats budget).isEmpty = false := by
      cases h : smartExcluded fileStats budget with
      | nil => exact absurd h hexc
      | cons a l => rfl
    rw [this]
    rfl

/-- Witness for C5 at concrete inputs exercising both directions: with a
large budget nothing is excluded and no note is appended; with budget 0
the single file is excluded and the note is appended with count 1. -/
theorem smartDiff_excluded_note_iff_witness :
    (buildSmartDiff (fun _ => Except.ok "D") [⟨"a", 1, 0⟩] "FULL" 1000
      = summaryBlock [⟨"a", 1, 0⟩]
        ++ detailedSection (fun _ => Except.ok "D") (smartSelected [⟨"a", 1, 0⟩] 1000)) ∧
    (buildSmartDiff (fun _ => Except.ok "D") [⟨"a", 1, 0⟩] "FULL" 0
      = summaryBlock [⟨"a", 1, 0⟩]
        ++ detailedSection (fun _ => Except.ok "D") (smartSelected [⟨"a", 1, 0⟩] 0)
        ++ ("\n[Note: Diffs excluded for "
            ++ toString (smartExcluded [⟨"a", 1, 0⟩] 0).length
            ++ " large files: "
            ++ String.intercalate ", " (smartExcluded [⟨"a", 1, 0⟩] 0)
            ++ "]\n")) :=
  ⟨(smartDiff_excluded_note_iff (fun _ => Except.ok "D") [⟨"a", 1, 0⟩] "FULL" 1000
      (by decide)).1 (by decide),
    (smartDiff_excluded_note_iff (fun _ => Except.ok "D") [⟨"a", 1, 0⟩] "FULL" 0
      (by decide)).2 (by decide)⟩

/-- C6: a zero or negative budget is not rejected: for a non-empty stats
list with the data-model invariant that line counts are non-negative,
every file is excluded, and the output is exactly the summary block
followed by the excluded-files note — no detailed-diff content. -/
theorem smartDiff_degenerate_budget (diffFiles : List String → Except String String)
    (fileStats : List FileChange) (fullDiff : String) (budget : Int)
    (hne : fileStats ≠ []) (hb : budget ≤ 0)
    (hcounts : ∀ st ∈ fileStats, 0 ≤ st.added ∧ 0 ≤ st.removed) :
    smartSelected fileStats budget = [] ∧
    smartExcluded fileStats budget
      = (sortByChurn fileStats).map (fun st => st.path) ∧
    buildSmartDiff diffFiles fileStats fullDiff budget
      = summaryBlock fileStats
        ++ excludedNote ((sortByChurn fileStats).map (fun st => st.path)) := by
  have hall : ∀ st ∈ sortByChurn fileStats,
      budget < (goLen (summaryBlock fileStats) : Int) + estimatedSize st := by
    intro st hst
    have hmem : st ∈ fileStats := (perm_sortByChurn fileStats).mem_iff.mp hst
    have hpos := goLen_summaryBlock_pos fileStats
    have hc := hcounts st hmem
    have : 0 ≤ estimatedSize st := by
      rw [estimatedSize]
      have : 0 ≤ st.added + st.removed := by omega
      positivity
    omega
  have hloop := selectLoop_all_excluded budget (sortByChurn fileStats)
    (goLen (summaryBlock fileStats) : Int) hall
  have hsel : smartSelected fileStats budget = [] := by
    show (selectLoop budget (sortByChurn fileStats)
      (goLen (summaryBlock fileStats) : Int)).1 = []
    rw [hloop]
  have hexc : smartExcluded fileStats budget
      = (sortByChurn fileStats).map (fun st => st.path) := by
    show (selectLoop budget (sortByChurn fileStats)
      (goLen (summaryBlock fileStats) : Int)).2 = _
    rw [hloop]
  refine ⟨hsel, hexc, ?_⟩
  rw [buildSmartDiff_decomp diffFiles fileStats fullDiff budget hne, hsel, hexc]
  have hnil : ((sortByChurn fileStats).map (fun st => st.path)).isEmpty = false := by
    have := sortByChurn_ne_nil hne
    cases h : sortByChurn fileStats with
    | nil => exact absurd h this
    | cons a l => rfl
  rw [hnil]
  show summaryBlock fileStats ++ detailedSection diffFiles [] ++ _ = _
  rw [show detailedSection diffFiles [] = "" from rfl]
  simp [String.append_empty]

/-- Witness for C6 at a concrete input: budget `-5`, one file. -/
theorem smartDiff_degenerate_budget_witness :
    smartSelected [⟨"a", 1, 0⟩] (-5) = [] ∧
    smartExcluded [⟨"a", 1, 0⟩] (-5)
      = (sortByChurn [⟨"a", 1, 0⟩]).map (fun st => st.path) ∧
    buildSmartDiff (fun _ => Except.ok "D") [⟨"a", 1, 0⟩] "FULL" (-5)
      = summaryBlock [⟨"a", 1, 0⟩]
        ++ excludedNote ((sortByChurn [⟨"a", 1, 0⟩]).map (fun st => st.path)) :=
  smartDiff_degenerate_budget (fun _ => Except.ok "D") [⟨"a", 1, 0⟩] "FULL" (-5)
    (by decide) (by decide) (by decide)

/-- C1: when the snapshot fits the budget
(`len(status)+len(diff)+len(history)+overhead ≤ maxChars`), the diff fed
into the prompt is the raw diff verbatim, the smart-selection branch is
not taken, and — as long as the raw diff does not itself happen to
contain the literal header text — the assembled prompt carries no
smart-selection caveat (its context-note slot is empty). -/
theorem run_small_snapshot_raw_diff (diffFiles : List String → Except String String)
    (snap : Snapshot) (userInput : String)
    (h : totalSize snap ≤ maxPromptChars) :
    chooseDiff diffFiles snap = snap.diff ∧
    usesSmartSelection snap = false ∧
    (goContains snap.diff summaryHeader = false →
      commitPrompt snap.status (chooseDiff diffFiles snap) snap.log
          snap.fileStats userInput
        = promptTemplate snap.status snap.diff "" snap.log
            (userInputSectionOf userInput)) := by
  have hnot : ¬ totalSize snap > maxPromptChars := by omega
  have hchoose : chooseDiff diffFiles snap = snap.diff := by
    unfold chooseDiff
    rw [if_neg hnot]
  refine ⟨hchoose, ?_, ?_⟩
  · unfold usesSmartSelection
    simpa using hnot
  · intro hc
    rw [hchoose]
    unfold commitPrompt contextNoteOf hasSmartDiffB
    rw [hc]
    simp

/-- Witness for C1 at a concrete snapshot that fits the budget. -/
theorem run_small_snapshot_raw_diff_witness :
    totalSize ⟨"st", "some diff", "lg", [⟨"f", 1, 2⟩]⟩ ≤ maxPromptChars ∧
    goContains "some diff" summaryHeader = false ∧
    chooseDiff (fun _ => Except.ok "") ⟨"st", "some diff", "lg", [⟨"f", 1, 2⟩]⟩
      = "some diff" ∧
    usesSmartSelection ⟨"st", "some diff", "lg", [⟨"f", 1, 2⟩]⟩ = false ∧
    commitPrompt "st"
        (chooseDiff (fun _ => Except.ok "") ⟨"st", "some diff", "lg", [⟨"f", 1, 2⟩]⟩)
        "lg" [⟨"f", 1, 2⟩] ""
      = promptTemplate "st" "some diff" "" "lg" (userInputSectionOf "") := by
  refine ⟨by decide, by decide, ?_, ?_, ?_⟩
  · exact (run_small_snapshot_raw_diff (fun _ => Except.ok "")
      ⟨"st", "some diff", "lg", [⟨"f", 1, 2⟩]⟩ "" (by decide)).1
  · exact (run_small_snapshot_raw_diff (fun _ => Except.ok "")
      ⟨"st", "some diff", "lg", [⟨"f", 1, 2⟩]⟩ "" (by decide)).2.1
  · exact (run_small_snapshot_raw_diff (fun _ => Except.ok "")
      ⟨"st", "some diff", "lg", [⟨"f", 1, 2⟩]⟩ "" (by decide)).2.2 (by decide)

/-- C8: the whitespace-only test on the collected diff is the sole gate
before message generation: when the diff is empty or trims to empty the
workflow returns without error, flags "no changes", and invokes neither
the language-model client nor `git commit`; and the client is invoked
exactly when the gate does not fire. -/
theorem run_empty_diff_short_circuit (diffFiles : List String → Except String String)
    (llm : String → Except String String) (userInput : String)
    (confirmed : Bool) (commitErr : Option String) (snap : Snapshot) :
    ((snap.diff = "" ∨ goTrimSpace snap.diff = "") →
      runModel none (Except.ok snap) diffFiles llm userInput confirmed commitErr
        = ⟨none, false, false, true⟩) ∧
    ((runModel none (Except.ok snap) diffFiles llm userInput confirmed
        commitErr).calledLLM = true
      ↔ ¬(snap.diff = "" ∨ goTrimSpace snap.diff = "")) := by
  constructor
  · intro h
    simp [runModel, if_pos h]
  · by_cases h : snap.diff = "" ∨ goTrimSpace snap.diff = ""
    · simp [runModel, if_pos h, h]
    · cases hllm : llm (commitPrompt snap.status (chooseDiff diffFiles snap)
          snap.log snap.fileStats userInput) with
      | error e => simp [runModel, if_neg h, hllm, h]
      | ok m =>
        cases confirmed <;> cases commitErr <;>
          simp [runModel, if_neg h, hllm, h]

/-- Witness for C8 at the concrete whitespace-only diff of the spec,
`"   \n  "`: the gate fires, nothing downstream runs. -/
theorem run_empty_diff_short_circuit_witness :
    ("   \n  " = "" ∨ goTrimSpace "   \n  " = "") ∧
    runModel none (Except.ok ⟨"st", "   \n  ", "lg", []⟩)
        (fun _ => Except.ok "") (fun _ => Except.ok "msg") "" true none
      = ⟨none, false, false, true⟩ :=
  ⟨by decide,
    (run_empty_diff_short_circuit (fun _ => Except.ok "") (fun _ => Except.ok "msg")
      "" true none ⟨"st", "   \n  ", "lg", []⟩).1 (by decide)⟩

/-- Counterexample to C9 as frozen: a `git.DiffFiles` failure during
smart selection does NOT surface — `buildSmartDiff` ignores the error
(`if err == nil`), producing the same normal output as a successful
empty diff, with the detailed-diffs header still present and the
detailed content silently missing. -/
theorem smartDiff_diffFiles_error_swallowed :
    buildSmartDiff (fun _ => Except.error "git diff failed") [⟨"a", 1, 0⟩] "FULL" 1000
      = "Changed Files Summary:\n  a: +1 -0 lines\n\nDetailed Diffs (selected files):\n\n" ∧
    buildSmartDiff (fun _ => Except.error "git diff failed") [⟨"a", 1, 0⟩] "FULL" 1000
      = buildSmartDiff (fun _ => Except.ok "") [⟨"a", 1, 0⟩] "FULL" 1000 :=
  ⟨by decide, by decide⟩

/-- C9 as amended: exactly two errors are tolerated by the core. (a–c)
`git.Log` collapses a failure whose text contains the no-commits marker
to an empty history and no error, and passes every other result
through; (d) a `git.DiffFiles` failure inside `buildSmartDiff` is
silently discarded — the output equals the one for an empty successful
diff, for every stats list and budget; (e–g) every other sub-operation
error surfaces: a collection error is returned as `errs[0]` with
nothing else run, a generation error aborts before any commit, and a
commit error is returned. -/
theorem error_propagation_policy :
    (∀ e : String, goContains e noCommitsMsg = true →
      logModel (Except.error e) = Except.ok "") ∧
    (∀ e : String, goContains e noCommitsMsg = false →
      logModel (Except.error e) = Except.error e) ∧
    (∀ s : String, logModel (Except.ok s) = Except.ok s) ∧
    (∀ (msg : List String → String) (fileStats : List FileChange)
        (fullDiff : String) (budget : Int),
      buildSmartDiff (fun ps => Except.error (msg ps)) fileStats fullDiff budget
        = buildSmartDiff (fun _ => Except.ok "") fileStats fullDiff budget) ∧
    (∀ (e : String) (diffFiles : List String → Except String String)
        (llm : String → Except String String) (userInput : String)
        (confirmed : Bool) (commitErr : Option String),
      runModel none (Except.error e) diffFiles llm userInput confirmed commitErr
        = ⟨some (RunError.collection e), false, false, false⟩) ∧
    (∀ (snap : Snapshot) (diffFiles : List String → Except String String)
        (userInput : String) (confirmed : Bool) (commitErr : Option String)
        (e : String),
      ¬(snap.diff = "" ∨ goTrimSpace snap.diff = "") →
      runModel none (Except.ok snap) diffFiles (fun _ => Except.error e)
          userInput confirmed commitErr
        = ⟨some (RunError.generation e), true, false, false⟩) ∧
    (∀ (snap : Snapshot) (diffFiles : List String → Except String String)
        (m : String) (userInput : String) (e : String),
      ¬(snap.diff = "" ∨ goTrimSpace snap.diff = "") →
      runModel none (Except.ok snap) diffFiles (fun _ => Except.ok m)
          userInput true (some e)
        = ⟨some (RunError.commitFailed e), true, false, false⟩) := by
  refine ⟨?_, ?_, ?_, ?_, ?_, ?_, ?_⟩
  · intro e he
    simp [logModel, he]
  · intro e he
    simp [logModel, he]
  · intro s
    rfl
  · intro msg fileStats fullDiff budget
    cases h : fileStats.isEmpty <;> simp [buildSmartDiff, h]
  · intro e diffFiles llm userInput confirmed commitErr
    rfl
  · intro snap diffFiles userInput confirmed commitErr e h
    simp [runModel, if_neg h]
  · intro snap diffFiles m userInput e h
    simp [runModel, if_neg h]

/-- Witness for the amended C9 at concrete inputs: the no-commits error
is collapsed, an ordinary error is passed through, and a failing
selected-files diff yields the same output as an empty successful one. -/
theorem error_propagation_policy_witness :
    logModel (Except.error "fatal: your current branch 'main' does not have any commits yet")
      = Except.ok "" ∧
    logModel (Except.error "fatal: not a git repository")
      = Except.error "fatal: not a git repository" ∧
    buildSmartDiff (fun ps => Except.error (String.intercalate " " ps))
        [⟨"a", 1, 0⟩] "FULL" 1000
      = buildSmartDiff (fun _ => Except.ok "") [⟨"a", 1, 0⟩] "FULL" 1000 ∧
    runModel none (Except.error "git status failed")
        (fun _ => Except.ok "") (fun _ => Except.ok "msg") "" true none
      = ⟨some (RunError.collection "git status failed"), false, false, false⟩ :=
  ⟨error_propagation_policy.1 _ (by decide),
    error_propagation_policy.2.1 _ (by decide),
    error_propagation_policy.2.2.2.1 _ [⟨"a", 1, 0⟩] "FULL" 1000,
    error_propagation_policy.2.2.2.2.1 "git status failed" _ _ "" true none⟩

/-! ## Observation functions for the staged/unstaged merge (C7) -/

/-- The paths of a statistics list, in order. -/
def pathsOf (m : List FileChange) : List String :=
  m.map (fun st => st.path)

/-- Total added count recorded for path `p` in a statistics list. -/
def addedOf : List FileChange → String → Int
  | [], _ => 0
  | st :: rest, p => (if st.path = p then st.added else 0) + addedOf rest p

/-- Total removed count recorded for path `p` in a statistics list. -/
def removedOf : List FileChange → String → Int
  | [], _ => 0
  | st :: rest, p => (if st.path = p then st.removed else 0) + removedOf rest p

/-- Total added count of the parsed numstat entries with path `p`. -/
def entriesAdded : List (String × Int × Int) → String → Int
  | [], _ => 0
  | e :: rest, p => (if e.1 = p then e.2.1 else 0) + entriesAdded rest p

/-- Total removed count of the parsed numstat entries with path `p`. -/
def entriesRemoved : List (String × Int × Int) → String → Int
  | [], _ => 0
  | e :: rest, p => (if e.1 = p then e.2.2 else 0) + entriesRemoved rest p

theorem pathsOf_addEntry (m : List FileChange) (e : String × Int × Int) :
    pathsOf (addEntry m e)
      = if e.1 ∈ pathsOf m then pathsOf m else pathsOf m ++ [e.1] := by
  induction m with
  | nil => simp [addEntry, pathsOf]
  | cons st rest ih =>
    by_cases h : st.path = e.1
    · have hmem : e.1 ∈ pathsOf (st :: rest) := by
        rw [pathsOf, List.map_cons]
        exact h ▸ List.mem_cons_self st.path _
      rw [if_pos hmem]
      simp only [addEntry, if_pos h]
      rfl
    · simp only [addEntry, if_neg h]
      have hstep : pathsOf (st :: addEntry rest e)
          = st.path :: pathsOf (addEntry rest e) := rfl
      rw [hstep, ih]
      have hiff : e.1 ∈ pathsOf (st :: rest) ↔ e.1 ∈ pathsOf rest := by
        rw [pathsOf, List.map_cons, List.mem_cons]
        constructor
        · rintro (hc | hm)
          · exact absurd hc.symm h
          · exact hm
        · exact Or.inr
      by_cases hm : e.1 ∈ pathsOf rest
      · rw [if_pos hm, if_pos (hiff.mpr hm)]
        rfl
      · rw [if_neg hm, if_neg (fun hc => hm (hiff.mp hc))]
        rfl

theorem pathsOf_nodup_addEntry (m : List FileChange) (e : String × Int × Int)
    (h : (pathsOf m).Nodup) : (pathsOf (addEntry m e)).Nodup := by
  rw [pathsOf_addEntry]
  by_cases hm : e.1 ∈ pathsOf m
  · simpa [hm] using h
  · simp only [hm, if_neg]
    simp [List.nodup_append, h, hm]

theorem addedOf_addEntry (m : List FileChange) (e : String × Int × Int)
    (p : String) :
    addedOf (addEntry m e) p = addedOf m p + (if e.1 = p then e.2.1 else 0) := by
  induction m with
  | nil => by_cases h : e.1 = p <;> simp [addEntry, addedOf, h]
  | cons st rest ih =>
    by_cases h : st.path = e.1
    · simp only [addEntry, if_pos h, addedOf]
      by_cases hp : st.path = p
      · rw [if_pos hp, if_pos hp, if_pos (h ▸ hp)]
        omega
      · rw [if_neg hp, if_neg hp, if_neg (fun hc => hp (h.trans hc))]
        omega
    · simp only [addEntry, if_neg h, addedOf, ih]
      omega

theorem removedOf_addEntry (m : List FileChange) (e : String × Int × Int)
    (p : String) :
    removedOf (addEntry m e) p = removedOf m p + (if e.1 = p then e.2.2 else 0) := by
  induction m with
  | nil => by_cases h : e.1 = p <;> simp [addEntry, removedOf, h]
  | cons st rest ih =>
    by_cases h : st.path = e.1
    · simp only [addEntry, if_pos h, removedOf]
      by_cases hp : st.path = p
      · rw [if_pos hp, if_pos hp, if_pos (h ▸ hp)]
        omega
      · rw [if_neg hp, if_neg hp, if_neg (fun hc => hp (h.trans hc))]
        omega
    · simp only [addEntry, if_neg h, removedOf, ih]
      omega

theorem addedOf_foldl (es : List (String × Int × Int)) :
    ∀ (acc : List FileChange) (p : String),
      addedOf (es.foldl addEntry acc) p = addedOf acc p + entriesAdded es p := by
  induction es with
  | nil => intro acc p; simp [entriesAdded]
  | cons e rest ih =>
    intro acc p
    rw [List.foldl_cons, ih, addedOf_addEntry]
    show _ = addedOf acc p + ((if e.1 = p then e.2.1 else 0) + entriesAdded rest p)
    omega

theorem removedOf_foldl (es : List (String × Int × Int)) :
    ∀ (acc : List FileChange) (p : String),
      removedOf (es.foldl addEntry acc) p = removedOf acc p + entriesRemoved es p := by
  induction es with
  | nil => intro acc p; simp [entriesRemoved]
  | cons e rest ih =>
    intro acc p
    rw [List.foldl_cons, ih, removedOf_addEntry]
    show _ = removedOf acc p + ((if e.1 = p then e.2.2 else 0) + entriesRemoved rest p)
    omega

theorem pathsOf_foldl_nodup (es : List (String × Int × Int)) :
    ∀ acc : List FileChange, (pathsOf acc).Nodup →
      (pathsOf (es.foldl addEntry acc)).Nodup := by
  induction es with
  | nil => intro acc h; simpa using h
  | cons e rest ih =>
    intro acc h
    rw [List.foldl_cons]
    exact ih _ (pathsOf_nodup_addEntry acc e h)

theorem pathsOf_foldl_mem (es : List (String × Int × Int)) :
    ∀ (acc : List FileChange) (p : String),
      p ∈ pathsOf (es.foldl addEntry acc)
        ↔ p ∈ pathsOf acc ∨ p ∈ es.map (fun e => e.1) := by
  induction es with
  | nil => intro acc p; simp
  | cons e rest ih =>
    intro acc p
    rw [List.foldl_cons, ih, pathsOf_addEntry, List.map_cons, List.mem_cons]
    by_cases hm : e.1 ∈ pathsOf acc
    · rw [if_pos hm]
      constructor
      · rintro (h | h)
        · exact Or.inl h
        · exact Or.inr (Or.inr h)
      · rintro (h | h | h)
        · exact Or.inl h
        · exact Or.inl (h ▸ hm)
        · exact Or.inr h
    · rw [if_neg hm, List.mem_append, List.mem_singleton]
      constructor
      · rintro ((h | h) | h)
        · exact Or.inl h
        · exact Or.inr (Or.inl h)
        · exact Or.inr (Or.inr h)
      · rintro (h | h | h)
        · exact Or.inl (Or.inl h)
        · exact Or.inl (Or.inr h)
        · exact Or.inr h

/-- C7: merging the staged and unstaged numstat outputs yields one entry
per file path (no duplicate paths), whose added and removed counts are
the sums over all parsed entries for that path from both outputs, and a
path occurs in the result exactly when some parsed entry mentions it;
in particular, staged `a: +2 -0` with unstaged `a: +0 -3, b: +1 -1`
merges to `a: +2 -3, b: +1 -1`. -/
theorem diffStat_merge_spec (stagedOutput unstagedOutput : String) :
    (pathsOf (diffStatModel stagedOutput unstagedOutput)).Nodup ∧
    (∀ p, addedOf (diffStatModel stagedOutput unstagedOutput) p
        = entriesAdded (numstatEntries stagedOutput
            ++ numstatEntries unstagedOutput) p ∧
      removedOf (diffStatModel stagedOutput unstagedOutput) p
        = entriesRemoved (numstatEntries stagedOutput
            ++ numstatEntries unstagedOutput) p) ∧
    (∀ p, p ∈ pathsOf (diffStatModel stagedOutput unstagedOutput)
        ↔ p ∈ (numstatEntries stagedOutput
            ++ numstatEntries unstagedOutput).map (fun e => e.1)) ∧
    diffStatModel "2\t0\ta\n" "0\t3\ta\n1\t1\tb\n"
      = [⟨"a", 2, 3⟩, ⟨"b", 1, 1⟩] := by
  refine ⟨?_, ?_, ?_, by decide⟩
  · show (pathsOf ((numstatEntries stagedOutput
      ++ numstatEntries unstagedOutput).foldl addEntry [])).Nodup
    exact pathsOf_foldl_nodup _ [] (by simp [pathsOf])
  · intro p
    constructor
    · show addedOf ((numstatEntries stagedOutput
        ++ numstatEntries unstagedOutput).foldl addEntry []) p = _
      rw [addedOf_foldl]
      show (0 : Int) + _ = _
      omega
    · show removedOf ((numstatEntries stagedOutput
        ++ numstatEntries unstagedOutput).foldl addEntry []) p = _
      rw [removedOf_foldl]
      show (0 : Int) + _ = _
      omega
  · intro p
    show p ∈ pathsOf ((numstatEntries stagedOutput
      ++ numstatEntries unstagedOutput).foldl addEntry []) ↔ _
    rw [pathsOf_foldl_mem]
    simp only [pathsOf, List.map_nil, List.not_mem_nil, false_or]

end Gic
